import Mathlib

/-!
Verification development for the response-shape introspection and
field-mapping evaluation engine of `ApiIntegrationWizard.tsx`.

The JavaScript value space is shallowly embedded as the inductive `Json`
below; JS `undefined` is represented by `Option.none` wherever a
computation can produce it (property access, array indexing, resolver
results), while JS `null` is the `Json.null` constructor.  A JS
`TypeError` throw (indexing into `null`) is represented with
`Except Unit`.  All functions are translated from the TypeScript source,
not from the specification's prose; the single specification-side
definition (`specIndexChain`, used for the refinement claim about the
path catalog) is clearly marked as such.
-/

/-- The document tree: JSON values as produced by `JSON.parse` or the
mock data (`null`, booleans, numbers, strings, ordered sequences,
keyed mappings).  Numbers are modelled as integers, which covers every
value the claims exercise. -/
inductive Json where
  | null : Json
  | bool : Bool → Json
  | num : Int → Json
  | str : String → Json
  | arr : List Json → Json
  | obj : List (String × Json) → Json

/-- JS truthiness (`!!v`) on embedded values: `null`, `false`, `0` and
`""` are falsy; every array and object is truthy. -/
def jsTruthy : Json → Bool
  | .null => false
  | .bool b => b
  | .num n => n != 0
  | .str s => s ≠ ""
  | .arr _ => true
  | .obj _ => true

/-- Models `typeof v === 'object' && v !== null`: true exactly for arrays and
keyed mappings (JS arrays satisfy `typeof === 'object'`). -/
def isObjectType : Json → Bool
  | .obj _ => true
  | .arr _ => true
  | _ => false

/-- Models `typeof v === 'object'` alone (JS: also true for `null`). -/
def jsTypeofObject : Json → Bool
  | .obj _ => true
  | .arr _ => true
  | .null => true
  | _ => false

/-- First-match association lookup, modelling JS object property read
`o[k]` (JS object keys are unique, so first match is the match);
`none` is JS `undefined`. -/
def assocLookup : List (String × Json) → String → Option Json
  | [], _ => none
  | (k, v) :: rest, key => if k = key then some v else assocLookup rest key

/-- Digits to a natural number, e.g. the effect of `parseInt` on an
all-digit string. -/
def digitsToNat (cs : List Char) : Nat :=
  cs.foldl (fun a c => a * 10 + (c.toNat - '0'.toNat)) 0

/-- JS canonical array-index strings: `arr["2"]` addresses element 2 but
`arr["02"]` does not (non-canonical numeric strings are plain missing
properties). -/
def canonicalIndex? (k : String) : Option Nat :=
  match k.data with
  | [] => none
  | c :: cs =>
    if (c :: cs).all (·.isDigit) ∧ (c = '0' → cs = []) then
      some (digitsToNat (c :: cs))
    else none

/-- JS property read `v[k]` for string keys on object-typed values
(`Record<string, unknown>` access in the source): objects use key
lookup, arrays resolve canonical numeric strings to elements and
`"length"` to their length; anything else is `undefined` (`none`). -/
def jsMember : Json → String → Option Json
  | .obj kvs, k => assocLookup kvs k
  | .arr l, k =>
    if k = "length" then some (.num l.length)
    else match canonicalIndex? k with
      | some i => l.get? i
      | none => none
  | .str s, k => if k = "length" then some (.num s.data.length) else none
  | _, _ => none

/-- JS numeric indexing `v[i]` as used by the unchecked cast
`(record as unknown[])[keyIndex]`: indexing `null` throws a `TypeError`
(`.error ()`); arrays yield the element or `undefined`; strings yield
the character; plain objects look up the decimal key; numbers and
booleans yield `undefined`. -/
def jsIndexThrow : Json → Nat → Except Unit (Option Json)
  | .null, _ => .error ()
  | .arr l, i => .ok (l.get? i)
  | .str s, i => .ok ((s.data.get? i).map fun c => .str (String.mk [c]))
  | .obj kvs, i => .ok (assocLookup kvs (String.mk (Nat.toDigits 10 i)))
  | .num _, _ => .ok none
  | .bool _, _ => .ok none

/-- Membership in the `\w` class of the segment regex `^(\w*)\[(\*|\d+)\]$`. -/
def isWordChar (c : Char) : Bool :=
  c.isAlphanum || c = '_'

/-- The bracket tail of a segment after its word-character key: succeeds
on exactly `[<digits>]` (yielding `some index`) or `[*]` (yielding
`none`, the wildcard), mirroring the anchored regex. -/
def bracketTail : List Char → Option (Option Nat)
  | [] => none
  | c :: tl =>
    if c = '[' then
      match tl.getLast? with
      | some d =>
        if d = ']' then
          if tl.dropLast = ['*'] then some none
          else if tl.dropLast ≠ [] ∧ tl.dropLast.all (·.isDigit) then
            some (some (digitsToNat tl.dropLast))
          else none
        else none
      | none => none
    else none

/-- Models `part.match(/^(\w*)\[(\*|\d+)\]$/)`: the optional key (`\w*`, which
is the maximal word-character run) together with the bracket content
(`some n` for a digit index, `none` for the wildcard `*`). -/
def arrayMatch (part : String) : Option (String × Option Nat) :=
  (bracketTail (part.data.dropWhile isWordChar)).map
    (fun idx => (String.mk (part.data.takeWhile isWordChar), idx))

/-- Models `path.replace(/^\$\.?/, '')`: strip one leading `$`, optionally
followed by a single `.`. -/
def stripRootChars : List Char → List Char
  | '$' :: '.' :: rest => rest
  | '$' :: rest => rest
  | cs => cs

/-- Models `String.prototype.split('.')` on the character list: always returns
at least one (possibly empty) segment. -/
def splitDots : List Char → List (List Char)
  | [] => [[]]
  | c :: rest =>
    if c = '.' then [] :: splitDots rest
    else
      match splitDots rest with
      | seg :: segs => (c :: seg) :: segs
      | [] => [[c]]

/-- Models `path.replace(/^\$\.?/, '').split('.').filter(Boolean)`: the list of
non-empty segments of a keyed address. -/
def parseParts (path : String) : List String :=
  ((splitDots (stripRootChars path.data)).map String.mk).filter (· ≠ "")

/-- Models `parseInt(s)`: skip leading whitespace, optional sign, then a
non-empty digit run; `none` models `NaN`. -/
def jsParseInt (s : String) : Option Int :=
  let cs := s.data.dropWhile (·.isWhitespace)
  match cs with
  | '-' :: rest =>
    let ds := rest.takeWhile (·.isDigit)
    if ds = [] then none else some (-(digitsToNat ds : Int))
  | '+' :: rest =>
    let ds := rest.takeWhile (·.isDigit)
    if ds = [] then none else some (digitsToNat ds : Int)
  | _ =>
    let ds := cs.takeWhile (·.isDigit)
    if ds = [] then none else some (digitsToNat ds : Int)

/-- The `for (const part of parts)` walk of `extractValue`'s keyed
branch.  The first argument is the running `current` value (`none` is JS
`undefined`); a `null`/`undefined` current short-circuits to the JS
`null` return, a wildcard bracket over an array returns that array
immediately, and a plain segment descends only through object-typed
values (otherwise the current value is carried unchanged). -/
def walk : Option Json → List String → Option Json
  | cur, [] => cur
  | none, _ :: _ => some .null
  | some .null, _ :: _ => some .null
  | some c, part :: rest =>
    match arrayMatch part with
    | some (key, bidx) =>
      let c1 := if key ≠ "" ∧ isObjectType c then jsMember c key else some c
      match c1 with
      | some (.arr l) =>
        match bidx with
        | none => some (.arr l)
        | some n => walk (l.get? n) rest
      | _ => walk c1 rest
    | none =>
      if isObjectType c then walk (jsMember c part) rest
      else walk (some c) rest

/-- The `responseFormat` union `'json' | 'positional'`. -/
inductive RespFormat where
  | json : RespFormat
  | positional : RespFormat
  deriving DecidableEq, Repr

/-- Models `extractValue(data, path, format)`: the value resolver.  Returns
`some Json.null` for the explicit `return null` failure paths, `none`
for a JS `undefined` result.  Total by construction: every operation of
the source body (regex match, `parseInt`, guarded property access) is
non-throwing, so the source's `try`/`catch` wrapper has no effect to
model. -/
def extractValue (data : Json) (path : String) (format : RespFormat) : Option Json :=
  if jsTruthy data = false then some .null
  else
    match format with
    | .positional =>
      match data with
      | .arr l =>
        match jsParseInt path with
        | some i => if 0 ≤ i then l.get? i.toNat else none
        | none => none
      | _ => some .null
    | .json => walk (some data) (parseParts path)


/-!  ## Path catalog and positional-array statistics  -/

mutual

/-- Models `extractJsonPaths(obj, prefix)`: enumerate addressable locations.
Arrays emit `prefix[*]` and recurse into element 0 with `prefix[*]` as
the new prefix; keyed mappings emit `prefix.key` per key and recurse;
primitives and `null` emit nothing. -/
def extractJsonPaths : Json → String → List String
  | .null, _ => []
  | .bool _, _ => []
  | .num _, _ => []
  | .str _, _ => []
  | .arr [], pfx => [pfx ++ "[*]"]
  | .arr (x :: _), pfx => (pfx ++ "[*]") :: extractJsonPaths x (pfx ++ "[*]")
  | .obj kvs, pfx => extractJsonPathsKV kvs pfx

/-- The `Object.keys(obj).forEach` body of `extractJsonPaths`: one
emitted path plus a recursion per key, in entry order. -/
def extractJsonPathsKV : List (String × Json) → String → List String
  | [], _ => []
  | (k, v) :: rest, pfx =>
    ((pfx ++ "." ++ k) :: extractJsonPaths v (pfx ++ "." ++ k)) ++ extractJsonPathsKV rest pfx

end

/-- Character escaping for the `JSON.stringify` model below (used only
to render object-valued sample cells). -/
def escapeJsonChar (c : Char) : List Char :=
  if c = '"' then ['\\', '"']
  else if c = '\\' then ['\\', '\\']
  else if c = '\n' then ['\\', 'n']
  else if c = '\t' then ['\\', 't']
  else if c = '\r' then ['\\', 'r']
  else [c]

/-- String-body escaping for `jsonStringify`. -/
def escapeJsonString (s : String) : String :=
  String.mk (s.data.foldr (fun c acc => escapeJsonChar c ++ acc) [])

mutual

/-- Models `JSON.stringify(v)` on embedded values. -/
def jsonStringify : Json → String
  | .null => "null"
  | .bool b => if b then "true" else "false"
  | .num n => toString n
  | .str s => "\"" ++ escapeJsonString s ++ "\""
  | .arr l => "[" ++ jsonStringifyElems l ++ "]"
  | .obj kvs => "\x7b" ++ jsonStringifyKVs kvs ++ "\x7d"

/-- Comma-joined serialization of array elements. -/
def jsonStringifyElems : List Json → String
  | [] => ""
  | [x] => jsonStringify x
  | x :: y :: rest => jsonStringify x ++ "," ++ jsonStringifyElems (y :: rest)

/-- Comma-joined serialization of object entries. -/
def jsonStringifyKVs : List (String × Json) → String
  | [] => ""
  | [(k, v)] => "\"" ++ escapeJsonString k ++ "\":" ++ jsonStringify v
  | (k, v) :: x :: rest =>
    "\"" ++ escapeJsonString k ++ "\":" ++ jsonStringify v ++ "," ++ jsonStringifyKVs (x :: rest)

end

mutual

/-- JS `String(v)` coercion: arrays join their elements with commas
(`null` elements become empty), objects render as `[object Object]`. -/
def jsToString : Json → String
  | .null => "null"
  | .bool b => if b then "true" else "false"
  | .num n => toString n
  | .str s => s
  | .arr l => jsArrJoin l
  | .obj _ => "[object Object]"

/-- Models `Array.prototype.join(',')` under `String(...)` coercion. -/
def jsArrJoin : List Json → String
  | [] => ""
  | [.null] => ""
  | [x] => jsToString x
  | .null :: y :: rest => "," ++ jsArrJoin (y :: rest)
  | x :: y :: rest => jsToString x ++ "," ++ jsArrJoin (y :: rest)

end

/-- Models `getPositionalArrayLength(data)`: the record length of a positional
payload.  A falsy document gives 0; an array whose first element is an
array gives that inner length; a non-empty array whose first element is
not object-typed (`null` counts, objects do not) gives the outer length;
everything else gives 0. -/
def getPositionalArrayLength (data : Json) : Nat :=
  if jsTruthy data = false then 0
  else
    match data with
    | .arr [] => 0
    | .arr (x :: rest) =>
      match x with
      | .arr inner => inner.length
      | .obj _ => 0
      | _ => (x :: rest).length
    | _ => 0

/-- The per-cell preview rendering inside `getPositionalSampleValues`:
`typeof v === 'object' ? JSON.stringify(v) : v` (note JS `typeof null
=== 'object'`, so `null` cells are rendered as the string `"null"`). -/
def sampleElem (v : Json) : Json :=
  if jsTypeofObject v then .str (jsonStringify v) else v

/-- Models `getPositionalSampleValues(data)`: first-record preview values,
mirroring `getPositionalArrayLength`'s branch structure. -/
def getPositionalSampleValues (data : Json) : List Json :=
  match data with
  | .arr [] => []
  | .arr (x :: rest) =>
    match x with
    | .arr inner => inner.map sampleElem
    | .obj _ => []
    | _ => (x :: rest).map sampleElem
  | _ => []


/-!  ## Field catalogs, entity directory and mapping management  -/

/-- The `ATTRIBUTE_FIELDS` table: the closed `(value, label)` catalog for the
`attributes` category. -/
def ATTRIBUTE_FIELDS : List (String × String) :=
  [("region", "Region"), ("room_count", "Room Count"),
   ("brand", "Brand"), ("property_code", "Property Code")]

/-- The `DATA_FIELDS` table: the closed `(value, label)` catalog for the `data`
category. -/
def DATA_FIELDS : List (String × String) :=
  [("occupancy", "Occupancy")]

/-- First-match lookup over a string-valued table (JS object read). -/
def strAssocLookup : List (String × String) → String → Option String
  | [], _ => none
  | (k, v) :: rest, key => if k = key then some v else strAssocLookup rest key

/-- Models `x || dflt` on an optional string: JS falls back when the value is
`undefined` or the empty string. -/
def jsStrOr : Option String → String → String
  | some s, d => if s = "" then d else s
  | none, d => d

/-- The hardcoded `FAKE_INTERNAL_ENTITY_MAP` key → display-name table. -/
def FAKE_INTERNAL_ENTITY_MAP : List (String × String) :=
  [("HNLMC", "Waikiki Beach Marriott"), ("RENEW", "Hotel Renew"),
   ("ABQMC", "Albuquerque Marriott"), ("ATLBC", "Atlanta Marriott Buckhead"),
   ("BDRSF", "DoubleTree Stamford"), ("BWGWT", "Holiday Inn Bowling Green"),
   ("CAEGS", "Embassy Suites Columbia"), ("CHSEM", "Embassy Suites Charleston"),
   ("CIDMC", "Cedar Rapids Marriott"), ("CLTBR", "Charlotte Airport Hilton"),
   ("CRWEM", "Embassy Suites Charleston WV"), ("CVGEM", "Holiday Inn Cincinnati"),
   ("DALEM", "Embassy Suites DFW"), ("DALHS", "Hampton Suites Mesquite"),
   ("DENAU", "Crowne Plaza Denver"), ("DSMDN", "Embassy Suites Des Moines"),
   ("DSMSI", "Sheraton West Des Moines"), ("DTWWI", "Westin Southfield"),
   ("DVPTR", "Radisson Quad City"), ("FLLMC", "Marriott Coral Springs"),
   ("FNLCO", "Hilton Fort Collins"), ("FYVSP", "Hampton Inn Springdale"),
   ("GSOGB", "Embassy Suites Greensboro"), ("GSOHW", "Homewood Suites Greensboro"),
   ("GSPES", "Embassy Suites Greenville")]

/-- Models `getOrgNameFromKey(key)`: directory lookup with the synthesized
placeholder `Property <key>` on a miss. -/
def getOrgNameFromKey (key : String) : String :=
  jsStrOr (strAssocLookup FAKE_INTERNAL_ENTITY_MAP key) ("Property " ++ key)

/-- The `FieldMapping` record: one declared mapping row.  `internalType` is kept as
a string because `updateMapping` writes the raw (cast) string value at
runtime. -/
structure FieldMapping where
  id : String
  externalPath : String
  internalType : String
  internalField : String
  deriving DecidableEq, Repr

/-- The `keyof FieldMapping` union used by `updateMapping`. -/
inductive FieldKey where
  | id : FieldKey
  | externalPath : FieldKey
  | internalType : FieldKey
  | internalField : FieldKey
  deriving DecidableEq, Repr

/-- The field catalog values associated with a category string: every
consumer of `internalType` branches on `=== 'attributes'` with
`DATA_FIELDS` as the other arm. -/
def fieldSetOf (t : String) : List String :=
  if t = "attributes" then ATTRIBUTE_FIELDS.map Prod.fst else DATA_FIELDS.map Prod.fst

/-- The invariant of claim C8: a mapping's field is a member of its
category's catalog. -/
def validMapping (m : FieldMapping) : Prop :=
  m.internalField ∈ fieldSetOf m.internalType

instance (m : FieldMapping) : Decidable (validMapping m) := by
  unfold validMapping; infer_instance

/-- Models `addMapping()`: append a fresh mapping with empty path, category
`attributes` and field `ATTRIBUTE_FIELDS[0].value`.  The generated
`crypto.randomUUID()` is passed in as `newId`. -/
def addMapping (ms : List FieldMapping) (newId : String) : List FieldMapping :=
  ms ++ [{ id := newId, externalPath := "", internalType := "attributes",
           internalField := "region" }]

/-- The per-row update of `updateMapping`: a category change resets the
field to the new category's first member; any other key is written
verbatim. -/
def applyUpdate (m : FieldMapping) (f : FieldKey) (v : String) : FieldMapping :=
  match f with
  | .internalType =>
    { m with internalType := v,
             internalField := if v = "attributes" then "region" else "occupancy" }
  | .id => { m with id := v }
  | .externalPath => { m with externalPath := v }
  | .internalField => { m with internalField := v }

/-- Models `updateMapping(id, field, value)`: map over the rows, touching only
the row with the matching id. -/
def updateMapping (ms : List FieldMapping) (mid : String) (f : FieldKey) (v : String) :
    List FieldMapping :=
  ms.map fun m => if m.id = mid then applyUpdate m f v else m

/-!  ## The mapping evaluator (`processResultsData`)  -/

/-- The `target` union `'portfolio' | 'organizations'`. -/
inductive MappingTarget where
  | portfolio : MappingTarget
  | organizations : MappingTarget
  deriving DecidableEq, Repr

/-- The `MappingConfig` record (the parts consumed by `processResultsData`). -/
structure MappingCfg where
  target : MappingTarget
  responseFormat : RespFormat
  keyPath : String
  keyIndex : Nat
  mappings : List FieldMapping
  deriving Repr

/-- The ordered envelope-key candidate list probed in keyed format. -/
def ENVELOPE_KEYS : List String :=
  ["data", "items", "results", "records", "organizations"]

/-- The `for (const key of [...])` probe: the first candidate key whose
value is an array, with that array. -/
def firstEnvelope (doc : Json) : Option (List Json) :=
  ENVELOPE_KEYS.findSome? fun k =>
    match jsMember doc k with
    | some (.arr l) => some l
    | _ => none

/-- The record-collection derivation of `processResultsData` (the code
between the `portfolio` early return and the `records.map`).
Positional: an array of arrays is itself the collection, any other
array is wrapped as a single flat record, and a non-array yields no
records.  Keyed: an array is the collection; otherwise the envelope
probe runs and the whole document is wrapped as a single record when
the accumulated `records` list is still empty and the document is
`typeof 'object'`. -/
def deriveRecords (format : RespFormat) (doc : Json) : List Json :=
  match format with
  | .positional =>
    match doc with
    | .arr [] => [.arr []]
    | .arr (x :: rest) =>
      match x with
      | .arr _ => x :: rest
      | _ => [.arr (x :: rest)]
    | _ => []
  | .json =>
    match doc with
    | .arr l => l
    | _ =>
      let records := (firstEnvelope doc).getD []
      if records.isEmpty ∧ jsTypeofObject doc then [doc] else records

/-- Models `String(v || 'unknown')` on a resolved key value (`none` is JS
`undefined`): any falsy value — missing, `null`, `0`, `""`, `false` —
becomes the literal `"unknown"`. -/
def jsValueOrUnknown : Option Json → String
  | some j => if jsTruthy j then jsToString j else "unknown"
  | none => "unknown"

/-- Positional entity-key extraction
`String((record as unknown[])[keyIndex] || 'unknown')`; the unchecked
cast means a `null` record throws (`.error`). -/
def entityKeyPositional (record : Json) (keyIndex : Nat) : Except Unit String :=
  (jsIndexThrow record keyIndex).map jsValueOrUnknown

/-- Keyed entity-key extraction
`String(extractValue(record, keyPath, format) || 'unknown')`. -/
def entityKeyKeyed (record : Json) (keyPath : String) : String :=
  jsValueOrUnknown (extractValue record keyPath .json)

/-- The output-label rule: the catalog label of `internalField` in the
category's catalog, else the raw `internalField` identifier. -/
def fieldLabel (m : FieldMapping) : String :=
  let found :=
    if m.internalType = "attributes" then
      (ATTRIBUTE_FIELDS.find? fun f => f.1 = m.internalField).map Prod.snd
    else
      (DATA_FIELDS.find? fun f => f.1 = m.internalField).map Prod.snd
  jsStrOr found m.internalField

/-- JS object property write `o[k] = v`: replace in place if the key
exists, else append. -/
def recordSet (fields : List (String × Option Json)) (k : String) (v : Option Json) :
    List (String × Option Json) :=
  if fields.any fun p => p.1 = k then
    fields.map fun p => if p.1 = k then (k, v) else p
  else fields ++ [(k, v)]

/-- The `for (const mapping of ...)` field-resolution loop shared by the
portfolio and organizations paths. -/
def buildFields (record : Json) (format : RespFormat) (ms : List FieldMapping) :
    List (String × Option Json) :=
  ms.foldl (fun acc m => recordSet acc (fieldLabel m) (extractValue record m.externalPath format)) []

/-- One `ProcessedRow` of the organizations path. -/
structure ProcessedRow where
  entityKey : String
  orgName : String
  mappedFields : List (String × Option Json)

/-- The `records.map((record) => ...)` body: entity key, directory
display name, and resolved fields for one record. -/
def processRow (format : RespFormat) (cfg : MappingCfg) (record : Json) :
    Except Unit ProcessedRow :=
  match format with
  | .positional =>
    (entityKeyPositional record cfg.keyIndex).map fun ek =>
      { entityKey := ek, orgName := getOrgNameFromKey ek,
        mappedFields := buildFields record format cfg.mappings }
  | .json =>
    .ok { entityKey := entityKeyKeyed record cfg.keyPath,
          orgName := getOrgNameFromKey (entityKeyKeyed record cfg.keyPath),
          mappedFields := buildFields record format cfg.mappings }

/-- The two successful result shapes of `processResultsData`. -/
inductive ProcessOut where
  | single : List (String × Option Json) → ProcessOut
  | rows : List ProcessedRow → ProcessOut

/-- Models `processResultsData()`: `.ok none` is the JS `return null` for a
falsy document, `.ok (some ...)` a normal result, `.error ()` a thrown
`TypeError` (possible only in the positional organizations path, on a
`null` record). -/
def processResultsData (doc : Json) (cfg : MappingCfg) : Except Unit (Option ProcessOut) :=
  if jsTruthy doc = false then .ok none
  else
    match cfg.target with
    | .portfolio => .ok (some (.single (buildFields doc cfg.responseFormat cfg.mappings)))
    | .organizations =>
      ((deriveRecords cfg.responseFormat doc).mapM (processRow cfg.responseFormat cfg)).map
        fun rows => some (.rows rows)

/-!  ## Specification-side definition (for the C2 refinement claim)  -/

/-- Modelled from the spec's words (claim C2 only, not from the source):
the nested value obtained by repeatedly indexing the current value by
each key segment in order; indexing anything but a keyed mapping, or
running past a missing key, is Absent (`none`). -/
def specIndexChain : Option Json → List String → Option Json
  | v, [] => v
  | some (.obj kvs), k :: rest => specIndexChain (assocLookup kvs k) rest
  | _, _ :: _ => none

/-- Dot-prefixed concatenation of key segments: the suffix the path
catalog appends below a prefix for a chain of keyed descents. -/
def dotJoin : List String → String
  | [] => ""
  | k :: rest => "." ++ k ++ dotJoin rest

/-- The full catalog path of a chain of keyed descents from the root
sentinel. -/
def joinPath (ks : List String) : String :=
  "$" ++ dotJoin ks

/-!  ## Claim theorems  -/

/-- C1: the value resolver is total — the embedding returns an
`Option Json` for every document, address and mode by construction
(every operation of the source body is non-throwing, so the `try`/
`catch` is dead) — and the malformed keyed address `"$.a..b"` with an
empty segment does not fault: for every document and both modes it
resolves to exactly the defined partial result of the well-formed
address `"$.a.b"`, because `filter(Boolean)` discards the empty
segment. -/
theorem c1_resolver_total_malformed_address (d : Json) (m : RespFormat) :
    extractValue d "$.a..b" m = extractValue d "$.a.b" m := by
  have h1 : parseParts "$.a..b" = ["a", "b"] := by rfl
  have h2 : parseParts "$.a.b" = ["a", "b"] := by rfl
  have h3 : jsParseInt "$.a..b" = none := by rfl
  have h4 : jsParseInt "$.a.b" = none := by rfl
  cases m
  · simp only [extractValue, h1, h2]
  · simp only [extractValue, h3, h4]

/-- C5 (counterexample): the claim says a plain segment against a
sequence stalls and carries the sequence through unchanged; in the code
a sequence satisfies `typeof === 'object'`, so the plain segment `0`
descends into element 0 of the array instead of carrying `[10, 20]`
through. -/
theorem c5_plain_segment_counterexample :
    extractValue (Json.obj [("a", Json.arr [Json.num 10, Json.num 20])]) "$.a.0" .json
      = some (Json.num 10)
    ∧ some (Json.num 10) ≠ some (Json.arr [Json.num 10, Json.num 20]) := by
  refine ⟨rfl, by simp⟩

/-- C5 (amended): a plain (bracket-free) segment descends by key when
the current value is a keyed-mapping OR a sequence (JS arrays are
`typeof 'object'`: digit keys address elements, other keys read as
missing); the carry-through stall applies exactly to scalar current
values — strings, numbers and booleans. -/
theorem c5_plain_segment_stalls_only_on_scalars (c : Json) (part : String)
    (rest : List String) (hm : arrayMatch part = none) :
    ((∃ s, c = .str s) ∨ (∃ n, c = .num n) ∨ (∃ b, c = .bool b) →
        walk (some c) (part :: rest) = walk (some c) rest)
    ∧ (∀ kvs, c = .obj kvs → walk (some c) (part :: rest) = walk (assocLookup kvs part) rest)
    ∧ (∀ l, c = .arr l → walk (some c) (part :: rest) = walk (jsMember (.arr l) part) rest) := by
  refine ⟨?_, ?_, ?_⟩
  · rintro (⟨s, rfl⟩ | ⟨n, rfl⟩ | ⟨b, rfl⟩) <;> simp [walk, hm, isObjectType]
  · rintro kvs rfl
    simp [walk, hm, isObjectType, jsMember]
  · rintro l rfl
    simp [walk, hm, isObjectType]

/-- C5 (witness for the amended theorem): a plain segment over the
scalar `5` carries the value through unchanged. -/
theorem c5_plain_segment_stalls_only_on_scalars_witness :
    walk (some (Json.num 5)) ["b"] = some (Json.num 5) := by
  have h := (c5_plain_segment_stalls_only_on_scalars (Json.num 5) "b" [] (by rfl)).1
    (Or.inr (Or.inl ⟨5, rfl⟩))
  simpa [walk] using h

/-- C6: when a segment carries the wildcard bracket `[*]` and the value
reached after the optional key descent is a sequence, the walk returns
that entire sequence unchanged as the final result even if further
segments remain; in particular the spec's example
`resolve({a:{b:[1,2,3]}}, "$.a.b[*]", Keyed) = [1,2,3]` holds. -/
theorem c6_wildcard_returns_whole_sequence (c : Json) (key part : String)
    (rest : List String) (l : List Json)
    (hc : c ≠ .null)
    (hm : arrayMatch part = some (key, none))
    (ha : (if key ≠ "" ∧ isObjectType c then jsMember c key else some c) = some (.arr l)) :
    walk (some c) (part :: rest) = some (.arr l)
    ∧ extractValue (Json.obj [("a", Json.obj [("b", Json.arr [Json.num 1, Json.num 2, Json.num 3])])])
        "$.a.b[*]" .json = some (Json.arr [Json.num 1, Json.num 2, Json.num 3]) := by
  refine ⟨?_, rfl⟩
  cases c with
  | null => exact absurd rfl hc
  | bool b => simp only [walk, hm]; rw [ha]
  | num n => simp only [walk, hm]; rw [ha]
  | str s => simp only [walk, hm]; rw [ha]
  | arr xs => simp only [walk, hm]; rw [ha]
  | obj kvs => simp only [walk, hm]; rw [ha]

/-- C6 (witness): the wildcard theorem applied at the spec's own
example, one segment into the walk. -/
theorem c6_wildcard_returns_whole_sequence_witness :
    walk (some (Json.obj [("b", Json.arr [Json.num 1, Json.num 2, Json.num 3])])) ["b[*]"]
      = some (Json.arr [Json.num 1, Json.num 2, Json.num 3]) :=
  (c6_wildcard_returns_whole_sequence
    (Json.obj [("b", Json.arr [Json.num 1, Json.num 2, Json.num 3])]) "b" "b[*]" []
    [Json.num 1, Json.num 2, Json.num 3] (fun h => Json.noConfusion h) rfl rfl).1

/-- C7: the positional sample list and the positional length agree on
every document shape: `positionalSamples(d).length = positionalLength(d)`. -/
theorem c7_samples_length_agree (d : Json) :
    (getPositionalSampleValues d).length = getPositionalArrayLength d := by
  cases d with
  | arr l =>
    cases l with
    | nil => simp [getPositionalSampleValues, getPositionalArrayLength, jsTruthy]
    | cons x rest =>
      cases x <;> simp [getPositionalSampleValues, getPositionalArrayLength, jsTruthy]
  | null => simp [getPositionalSampleValues, getPositionalArrayLength, jsTruthy]
  | bool b => simp [getPositionalSampleValues, getPositionalArrayLength]
  | num n => simp [getPositionalSampleValues, getPositionalArrayLength]
  | str s => simp [getPositionalSampleValues, getPositionalArrayLength]
  | obj kvs => simp [getPositionalSampleValues, getPositionalArrayLength, jsTruthy]

/-- C9: a falsy document (`0`, `""`, `false` — and `null` itself) makes
the resolver return the JS-`null` Absent result for every address in
both modes, while the keyed sentinel-only address `"$"` on any truthy
document returns the document itself (zero segments leave the starting
value untouched). -/
theorem c9_falsy_document_and_root_address (d : Json) (address : String) (m : RespFormat) :
    (jsTruthy d = false → extractValue d address m = some .null)
    ∧ (jsTruthy d = true → extractValue d "$" .json = some d) := by
  constructor
  · intro h
    simp [extractValue, h]
  · intro h
    have hp : parseParts "$" = [] := by rfl
    simp [extractValue, h, hp, walk]

/-- C9 (witness): the number `0` resolves to Absent at an arbitrary
address, and `"$"` on a truthy string returns the document itself. -/
theorem c9_falsy_document_and_root_address_witness :
    extractValue (Json.num 0) "$.anything" .json = some .null
    ∧ extractValue (Json.str "hi") "$" .json = some (Json.str "hi") :=
  ⟨(c9_falsy_document_and_root_address (Json.num 0) "$.anything" .json).1 rfl,
   (c9_falsy_document_and_root_address (Json.str "hi") "$" .json).2 rfl⟩

/-- C2 (counterexample): the path `"$.a.b"` is enumerated by the
catalog over `{"a": 5, "a.b": 9}` (it comes from the dotted key
`"a.b"`), is built purely from dot segments without brackets, yet
resolving it yields `5` (the walk reads key `"a"` and then stalls on
the scalar), while repeatedly indexing the document by the path's key
segments `a`, `b` in order is Absent. -/
theorem c2_catalog_path_counterexample :
    "$.a.b" ∈ extractJsonPaths (Json.obj [("a", Json.num 5), ("a.b", Json.num 9)]) "$"
    ∧ parseParts "$.a.b" = ["a", "b"]
    ∧ extractValue (Json.obj [("a", Json.num 5), ("a.b", Json.num 9)]) "$.a.b" .json
        = some (Json.num 5)
    ∧ specIndexChain (some (Json.obj [("a", Json.num 5), ("a.b", Json.num 9)])) ["a", "b"]
        = none
    ∧ some (Json.num 5) ≠ (none : Option Json) := by
  refine ⟨?_, rfl, rfl, rfl, by simp⟩
  simp [extractJsonPaths, extractJsonPathsKV]

/-- C3 (counterexample): on the document `{"data": []}` the candidate
key `data` is present with a sequence value, yet the code does not use
that (empty) sequence as the record collection: the `records.length
=== 0` re-check makes it fall back to wrapping the whole document as a
single record. -/
theorem c3_envelope_probe_counterexample :
    firstEnvelope (Json.obj [("data", Json.arr [])]) = some []
    ∧ deriveRecords .json (Json.obj [("data", Json.arr [])])
        = [Json.obj [("data", Json.arr [])]]
    ∧ ([Json.obj [("data", Json.arr [])]] : List Json) ≠ [] := by
  refine ⟨rfl, rfl, by simp⟩

/-- C3 (amended): in EntityCollection mode with Keyed format, a
non-sequence document is probed for the first candidate key
(`data`, `items`, `results`, `records`, `organizations`) whose value is
a sequence; that sequence is used as the record collection when it is
non-empty, and the whole keyed-mapping document is wrapped as a
single-element collection when the probe finds nothing or when the
first matching sequence is empty. -/
theorem c3_envelope_probe_and_fallback (kvs : List (String × Json)) :
    (∀ x l, firstEnvelope (.obj kvs) = some (x :: l) →
        deriveRecords .json (.obj kvs) = x :: l)
    ∧ (firstEnvelope (.obj kvs) = some [] →
        deriveRecords .json (.obj kvs) = [.obj kvs])
    ∧ (firstEnvelope (.obj kvs) = none →
        deriveRecords .json (.obj kvs) = [.obj kvs]) := by
  refine ⟨?_, ?_, ?_⟩
  · intro x l h
    simp [deriveRecords, h]
  · intro h
    simp [deriveRecords, h, jsTypeofObject]
  · intro h
    simp [deriveRecords, h, jsTypeofObject]

/-- C3 (witness): the probe skips the non-sequence `data` value and
uses the non-empty `items` sequence as the collection. -/
theorem c3_envelope_probe_and_fallback_witness :
    deriveRecords .json (Json.obj [("data", Json.num 4), ("items", Json.arr [Json.num 1])])
      = [Json.num 1] :=
  (c3_envelope_probe_and_fallback [("data", Json.num 4), ("items", Json.arr [Json.num 1])]).1
    (Json.num 1) [] rfl

/-- C4 (counterexample): in Positional mode the entity key of a record
whose key cell holds the present, defined value `0` is the literal
`"unknown"`, not `"0"`: the `|| 'unknown'` coercion fires on every
falsy value, not only on missing ones. -/
theorem c4_entity_key_counterexample :
    entityKeyPositional (Json.arr [Json.num 0]) 0 = .ok "unknown"
    ∧ jsToString (Json.num 0) = "0"
    ∧ ("unknown" : String) ≠ "0" := by
  refine ⟨rfl, ?_, by decide⟩
  simp [jsToString]
  decide

/-- C4 (amended): the entity key is the string form of the value at
the key locator when that value is present and truthy; the literal
`"unknown"` is substituted exactly when the value is missing/undefined
or falsy (`null`, `0`, `""`, `false`) — in both Positional and Keyed
modes. -/
theorem c4_entity_key_unknown_on_falsy (l : List Json) (i : Nat) (r : Json) (p : String) :
    (∀ v, l.get? i = some v → jsTruthy v = true →
        entityKeyPositional (.arr l) i = .ok (jsToString v))
    ∧ (∀ v, l.get? i = some v → jsTruthy v = false →
        entityKeyPositional (.arr l) i = .ok "unknown")
    ∧ (l.get? i = none → entityKeyPositional (.arr l) i = .ok "unknown")
    ∧ (∀ v, extractValue r p .json = some v → jsTruthy v = true →
        entityKeyKeyed r p = jsToString v)
    ∧ (∀ v, extractValue r p .json = some v → jsTruthy v = false →
        entityKeyKeyed r p = "unknown")
    ∧ (extractValue r p .json = none → entityKeyKeyed r p = "unknown") := by
  refine ⟨?_, ?_, ?_, ?_, ?_, ?_⟩
  · intro v hv ht
    rw [List.get?_eq_getElem?] at hv
    simp [entityKeyPositional, jsIndexThrow, hv, jsValueOrUnknown, ht, Except.map]
  · intro v hv ht
    rw [List.get?_eq_getElem?] at hv
    simp [entityKeyPositional, jsIndexThrow, hv, jsValueOrUnknown, ht, Except.map]
  · intro hv
    rw [List.get?_eq_getElem?] at hv
    simp [entityKeyPositional, jsIndexThrow, hv, jsValueOrUnknown, Except.map]
  · intro v hv ht
    simp [entityKeyKeyed, hv, jsValueOrUnknown, ht]
  · intro v hv ht
    simp [entityKeyKeyed, hv, jsValueOrUnknown, ht]
  · intro hv
    simp [entityKeyKeyed, hv, jsValueOrUnknown]

/-- C4 (witness for the amended theorem): a truthy string cell becomes
the entity key verbatim. -/
theorem c4_entity_key_unknown_on_falsy_witness :
    entityKeyPositional (Json.arr [Json.str "RENEW"]) 0 = .ok (jsToString (Json.str "RENEW")) :=
  (c4_entity_key_unknown_on_falsy [Json.str "RENEW"] 0 Json.null "").1
    (Json.str "RENEW") rfl rfl

/-- C8 (counterexample): `updateMapping` accepts an arbitrary string
for `internalField`; updating the field of a valid `attributes` mapping
to the foreign `data`-catalog value `occupancy` leaves the configuration
violating the invariant. -/
theorem c8_update_mapping_counterexample :
    validMapping ⟨"1", "3", "attributes", "region"⟩
    ∧ updateMapping [⟨"1", "3", "attributes", "region"⟩] "1" .internalField "occupancy"
        = [⟨"1", "3", "attributes", "occupancy"⟩]
    ∧ ¬ validMapping ⟨"1", "3", "attributes", "occupancy"⟩ := by
  refine ⟨by decide, rfl, by decide⟩

/-- C8 (amended): on a configuration satisfying the invariant,
`addMapping` and every `updateMapping` of `id`, `externalPath` or
`internalType` preserve it (a category change resets the field to the
new category's first member); an `internalField` update preserves it
exactly when the supplied value belongs to the touched mapping's
current category catalog — the function itself accepts arbitrary
strings. -/
theorem c8_mapping_invariant_preserved (ms : List FieldMapping) (mid v newId : String)
    (f : FieldKey) (hinv : ∀ m ∈ ms, validMapping m) :
    (∀ m ∈ addMapping ms newId, validMapping m)
    ∧ (f ≠ .internalField → ∀ m ∈ updateMapping ms mid f v, validMapping m)
    ∧ ((∀ m ∈ ms, m.id = mid → v ∈ fieldSetOf m.internalType) →
        ∀ m ∈ updateMapping ms mid .internalField v, validMapping m) := by
  refine ⟨?_, ?_, ?_⟩
  · intro m hm
    rcases List.mem_append.mp hm with h | h
    · exact hinv m h
    · simp only [List.mem_singleton] at h
      subst h
      simp [validMapping, fieldSetOf, ATTRIBUTE_FIELDS]
  · intro hf m hm
    rcases List.mem_map.mp hm with ⟨m0, hm0, rfl⟩
    by_cases hid : m0.id = mid
    · simp only [hid, if_pos rfl]
      cases f with
      | id => simpa [applyUpdate, validMapping] using hinv m0 hm0
      | externalPath => simpa [applyUpdate, validMapping] using hinv m0 hm0
      | internalType =>
        by_cases hv : v = "attributes" <;>
          simp [applyUpdate, validMapping, fieldSetOf, hv, ATTRIBUTE_FIELDS, DATA_FIELDS]
      | internalField => exact absurd rfl hf
    · simp only [if_neg hid]
      exact hinv m0 hm0
  · intro hv m hm
    rcases List.mem_map.mp hm with ⟨m0, hm0, rfl⟩
    by_cases hid : m0.id = mid
    · simp only [hid, if_pos rfl]
      simpa [applyUpdate, validMapping] using hv m0 hm0 hid
    · simp only [if_neg hid]
      exact hinv m0 hm0

/-- C8 (witness): changing the category of a valid mapping to `data`
resets its field to `occupancy`, which is in the `data` catalog. -/
theorem c8_mapping_invariant_preserved_witness :
    validMapping ⟨"1", "3", "data", "occupancy"⟩ :=
  (c8_mapping_invariant_preserved [⟨"1", "3", "attributes", "region"⟩] "1" "data" "u"
      FieldKey.internalType (by decide)).2.1 (by decide)
    ⟨"1", "3", "data", "occupancy"⟩ (by decide)

/-- C10 (counterexample): in EntityCollection/Positional mode the falsy
scalar document `0` (a non-sequence) makes the evaluator return the
JS-`null` Absent result, not an empty sequence of records. -/
theorem c10_positional_nonarray_counterexample :
    processResultsData (Json.num 0) ⟨.organizations, .positional, "", 1, []⟩ = .ok none
    ∧ (Except.ok none : Except Unit (Option ProcessOut)) ≠ .ok (some (.rows [])) := by
  refine ⟨rfl, by simp⟩

/-- C10 (amended): in EntityCollection mode with Positional format,
every truthy non-sequence document derives an empty record collection
and the evaluator returns an empty row sequence (not Absent and not a
single-record fallback, which exists only under Keyed format). -/
theorem c10_positional_nonarray_empty_rows (doc : Json) (cfg : MappingCfg)
    (ht : jsTruthy doc = true)
    (hna : ∀ l, doc ≠ .arr l)
    (htar : cfg.target = .organizations)
    (hfmt : cfg.responseFormat = .positional) :
    processResultsData doc cfg = .ok (some (.rows [])) := by
  have hdr : deriveRecords .positional doc = [] := by
    cases doc with
    | arr l => exact absurd rfl (hna l)
    | null => rfl
    | bool b => rfl
    | num n => rfl
    | str s => rfl
    | obj kvs => rfl
  simp [processResultsData, ht, htar, hfmt, hdr, List.mapM, List.mapM.loop, Except.map, pure, Except.pure]

/-- C10 (witness): a keyed-mapping document under Positional format
yields an empty row list. -/
theorem c10_positional_nonarray_empty_rows_witness :
    processResultsData (Json.obj [("a", Json.num 1)])
      ⟨.organizations, .positional, "", 1, []⟩ = .ok (some (.rows [])) :=
  c10_positional_nonarray_empty_rows (Json.obj [("a", Json.num 1)])
    ⟨.organizations, .positional, "", 1, []⟩ rfl (fun _ h => Json.noConfusion h) rfl rfl

/-!  ## Helper lemmas for claim C2  -/

/-- Splitting always yields at least one segment. -/
theorem splitDots_ne_nil (cs : List Char) : splitDots cs ≠ [] := by
  induction cs with
  | nil => simp [splitDots]
  | cons c rest ih =>
    rw [splitDots]
    split
    · simp
    · split <;> simp

/-- Prepending dot-free characters extends the first segment of a
split. -/
theorem splitDots_append (kd : List Char) (cs : List Char) (h : '.' ∉ kd) :
    ∀ hh tt, splitDots cs = hh :: tt → splitDots (kd ++ cs) = (kd ++ hh) :: tt := by
  induction kd with
  | nil => intro hh tt hcs; simpa using hcs
  | cons c kd' ih =>
    intro hh tt hcs
    have hc : c ≠ '.' := fun he => h (he ▸ List.mem_cons_self c kd')
    have hkd' : '.' ∉ kd' := fun hm => h (List.mem_cons_of_mem c hm)
    have hrec := ih hkd' hh tt hcs
    simp [splitDots, hc, hrec]

/-- Splitting the dot-joined form of dot-free keys recovers the keys,
preceded by the empty segment produced by the leading dot. -/
theorem splitDots_dotJoin (ks : List String) (h : ∀ k ∈ ks, '.' ∉ k.data) :
    splitDots (dotJoin ks).data = [] :: ks.map String.data := by
  induction ks with
  | nil => simp [dotJoin, splitDots]
  | cons k rest ih =>
    have hk : '.' ∉ k.data := h k (List.mem_cons_self k rest)
    have hrest : ∀ k' ∈ rest, '.' ∉ k'.data := fun k' hm => h k' (List.mem_cons_of_mem k hm)
    have hih := ih hrest
    have hdot : (".").data = ['.'] := rfl
    have hdata : (dotJoin (k :: rest)).data = '.' :: (k.data ++ (dotJoin rest).data) := by
      simp [dotJoin, String.data_append, hdot]
    have happ := splitDots_append k.data (dotJoin rest).data hk [] (rest.map String.data) hih
    rw [hdata]
    simp [splitDots, happ]

/-- A successful association lookup is a member of the entry list. -/
theorem assocLookup_mem (kvs : List (String × Json)) (k : String) (v : Json)
    (h : assocLookup kvs k = some v) : (k, v) ∈ kvs := by
  induction kvs with
  | nil => simp [assocLookup] at h
  | cons p rest ih =>
    obtain ⟨k', v'⟩ := p
    rw [assocLookup] at h
    split at h
    · rename_i heq
      injection h with hv
      subst hv
      subst heq
      exact List.mem_cons_self _ _
    · exact List.mem_cons_of_mem _ (ih h)

/-- The catalog emits `pfx.k` for every entry `(k, v)` of a keyed
mapping. -/
theorem mem_extractJsonPathsKV_emit (kvs : List (String × Json)) (k : String) (v : Json)
    (pfx : String) (h : (k, v) ∈ kvs) :
    (pfx ++ "." ++ k) ∈ extractJsonPathsKV kvs pfx := by
  induction kvs with
  | nil => cases h
  | cons p rest ih =>
    obtain ⟨k', v'⟩ := p
    rw [extractJsonPathsKV]
    rcases List.mem_cons.mp h with heq | hmem
    · cases heq
      exact List.mem_append_left _ (List.mem_cons_self _ _)
    · exact List.mem_append_right _ (ih hmem)

/-- The catalog contains every path its recursion over an entry's value
emits. -/
theorem mem_extractJsonPathsKV_rec (kvs : List (String × Json)) (k : String) (v : Json)
    (pfx q : String) (h : (k, v) ∈ kvs)
    (hq : q ∈ extractJsonPaths v (pfx ++ "." ++ k)) :
    q ∈ extractJsonPathsKV kvs pfx := by
  induction kvs with
  | nil => cases h
  | cons p rest ih =>
    obtain ⟨k', v'⟩ := p
    rw [extractJsonPathsKV]
    rcases List.mem_cons.mp h with heq | hmem
    · cases heq
      exact List.mem_append_left _ (List.mem_cons_of_mem _ hq)
    · exact List.mem_append_right _ (ih hmem)

/-- A character list that does not start with `[` has no bracket
tail. -/
theorem bracketTail_eq_none (cs : List Char) (h : ∀ tl, cs ≠ '[' :: tl) :
    bracketTail cs = none := by
  cases cs with
  | nil => rfl
  | cons c tl =>
    have hc : c ≠ '[' := fun he => h tl (by rw [he])
    simp [bracketTail, hc]

/-- A segment containing no `[` character never matches the bracket
regex. -/
theorem arrayMatch_eq_none (part : String) (h : '[' ∉ part.data) :
    arrayMatch part = none := by
  rw [arrayMatch]
  have hbt : bracketTail (part.data.dropWhile isWordChar) = none := by
    apply bracketTail_eq_none
    intro tl he
    have hmem : '[' ∈ part.data.dropWhile isWordChar := by
      rw [he]; exact List.mem_cons_self _ _
    exact h ((List.dropWhile_sublist _).subset hmem)
  simp [hbt]

/-- The walk follows a chain of bracket-free keyed descents exactly as
the spec's repeated indexing does, whenever that indexing succeeds. -/
theorem walk_plain_keys (ks : List String) (d : Json) (v : Json)
    (hplain : ∀ k ∈ ks, k ≠ "" ∧ '.' ∉ k.data ∧ '[' ∉ k.data)
    (hne : ks ≠ [])
    (hchain : specIndexChain (some d) ks = some v) :
    walk (some d) ks = some v := by
  induction ks generalizing d with
  | nil => exact absurd rfl hne
  | cons k rest ih =>
    have hk := hplain k (List.mem_cons_self k rest)
    have harr : arrayMatch k = none := arrayMatch_eq_none k hk.2.2
    cases d
    case obj kvs =>
      rw [specIndexChain] at hchain
      have hw : walk (some (Json.obj kvs)) (k :: rest) = walk (assocLookup kvs k) rest := by
        simp [walk, harr, isObjectType, jsMember]
      rw [hw]
      cases rest with
      | nil =>
        rw [specIndexChain] at hchain
        rw [hchain]
        simp [walk]
      | cons r rs =>
        cases hlk : assocLookup kvs k with
        | none =>
          rw [hlk] at hchain
          simp [specIndexChain] at hchain
        | some w =>
          rw [hlk] at hchain
          cases w
          case obj kvs' =>
            exact ih (Json.obj kvs')
              (fun k' hm => hplain k' (List.mem_cons_of_mem k hm)) (by simp) hchain
          all_goals simp [specIndexChain] at hchain
    all_goals simp [specIndexChain] at hchain

/-- Every realized chain of keyed descents appears in the catalog under
any prefix. -/
theorem dotJoin_mem_catalog (ks : List String) (d : Json) (v : Json) (pfx : String)
    (hne : ks ≠ [])
    (hchain : specIndexChain (some d) ks = some v) :
    (pfx ++ dotJoin ks) ∈ extractJsonPaths d pfx := by
  induction ks generalizing d pfx with
  | nil => exact absurd rfl hne
  | cons k rest ih =>
    cases d
    case obj kvs =>
      rw [specIndexChain] at hchain
      cases hlk : assocLookup kvs k with
      | none =>
        rw [hlk] at hchain
        cases rest <;> simp [specIndexChain] at hchain
      | some w =>
        rw [hlk] at hchain
        have hmem := assocLookup_mem kvs k w hlk
        cases rest with
        | nil =>
          have hpath : pfx ++ dotJoin [k] = pfx ++ "." ++ k := by
            simp [dotJoin, String.append_assoc]
          rw [hpath, extractJsonPaths]
          exact mem_extractJsonPathsKV_emit kvs k w pfx hmem
        | cons r rs =>
          have hq := ih w (pfx ++ "." ++ k) (by simp) hchain
          have hpath : pfx ++ dotJoin (k :: r :: rs) = (pfx ++ "." ++ k) ++ dotJoin (r :: rs) := by
            simp [dotJoin, String.append_assoc]
          rw [hpath, extractJsonPaths]
          exact mem_extractJsonPathsKV_rec kvs k w pfx _ hmem hq
    all_goals simp [specIndexChain] at hchain

/-- Parsing the joined path of non-empty dot-free keys recovers exactly
those keys as walk segments. -/
theorem parseParts_joinPath (ks : List String)
    (hne : ∀ k ∈ ks, k ≠ "") (hd : ∀ k ∈ ks, '.' ∉ k.data) :
    parseParts (joinPath ks) = ks := by
  cases ks with
  | nil => rfl
  | cons k rest =>
    have hsd := splitDots_dotJoin (k :: rest) hd
    have hdot : (".").data = ['.'] := rfl
    have hdata : (dotJoin (k :: rest)).data = '.' :: (k.data ++ (dotJoin rest).data) := by
      simp [dotJoin, String.data_append, hdot]
    have hjd : (joinPath (k :: rest)).data
        = '$' :: '.' :: (k.data ++ (dotJoin rest).data) := by
      have hdollar : ("$").data = ['$'] := rfl
      simp [joinPath, String.data_append, hdollar, hdata]
    have htail : splitDots (k.data ++ (dotJoin rest).data) = (k :: rest).map String.data := by
      rw [hdata] at hsd
      have : splitDots ('.' :: (k.data ++ (dotJoin rest).data))
          = [] :: splitDots (k.data ++ (dotJoin rest).data) := by
        simp [splitDots]
      rw [this] at hsd
      exact (List.cons.injEq _ _ _ _).mp hsd |>.2
    rw [parseParts, hjd]
    rw [stripRootChars]
    rw [htail]
    have hmk : ((k :: rest).map String.data).map String.mk = k :: rest := by
      have hid : (String.mk ∘ String.data) = id := funext fun s => rfl
      rw [List.map_map, hid, List.map_id]
    rw [hmk]
    apply List.filter_eq_self.mpr
    intro a ha
    simpa using hne a ha

/-- C2 (amended): for every document and every non-empty chain of plain
keys (non-empty, containing no `.` and no `[`) that is realized as
keyed descents in the document (the spec-side repeated indexing
succeeds), the joined dotted path is enumerated by the path catalog and
resolving it in Keyed mode yields exactly the nested value; the
original claim additionally covered dotted paths arising from keys that
themselves contain `.`, on which resolution and repeated indexing
disagree. -/
theorem c2_catalog_paths_resolve_to_nested_value (d : Json) (ks : List String) (v : Json)
    (hne : ks ≠ [])
    (hplain : ∀ k ∈ ks, k ≠ "" ∧ '.' ∉ k.data ∧ '[' ∉ k.data)
    (hchain : specIndexChain (some d) ks = some v) :
    joinPath ks ∈ extractJsonPaths d "$"
    ∧ extractValue d (joinPath ks) .json = some v := by
  constructor
  · exact dotJoin_mem_catalog ks d v "$" hne hchain
  · have hobj : ∃ kvs, d = .obj kvs := by
      cases ks with
      | nil => exact absurd rfl hne
      | cons k rest =>
        cases d
        case obj kvs => exact ⟨kvs, rfl⟩
        all_goals simp [specIndexChain] at hchain
    obtain ⟨kvs, rfl⟩ := hobj
    have ht : jsTruthy (Json.obj kvs) = true := rfl
    rw [extractValue]
    simp only [ht]
    rw [parseParts_joinPath ks (fun k hk => (hplain k hk).1) (fun k hk => (hplain k hk).2.1)]
    exact walk_plain_keys ks (Json.obj kvs) v hplain hne hchain

/-- C2 (witness for the amended theorem): the chain `a`, `b` realized in
`{a:{b:7}}` is catalogued as `"$.a.b"` and resolves to `7`. -/
theorem c2_catalog_paths_resolve_to_nested_value_witness :
    joinPath ["a", "b"] ∈ extractJsonPaths (Json.obj [("a", Json.obj [("b", Json.num 7)])]) "$"
    ∧ extractValue (Json.obj [("a", Json.obj [("b", Json.num 7)])]) (joinPath ["a", "b"]) .json
        = some (Json.num 7) :=
  c2_catalog_paths_resolve_to_nested_value
    (Json.obj [("a", Json.obj [("b", Json.num 7)])]) ["a", "b"] (Json.num 7)
    (by simp) (by decide) rfl
